import Mathlib

/-!
# tasker: a command-line task manager over a document collection

Shallow embedding of `main.go`.

The program keeps its tasks in one MongoDB collection and performs exactly one
driver call per invocation.  The collection is the only state, so it is passed
explicitly: a `Store` is the list of the documents of the collection in the
order in which the store iterates over them (insertion order).  The behaviour
of the driver calls the program makes (`InsertOne`, `Find`, `FindOneAndUpdate`,
`DeleteOne`) is written out on that list; whether a call fails for reasons
outside the program (connectivity and the like) is supplied by a `Driver`
record, so that the error paths of the source are part of the model.

Object identifiers and instants are natural numbers, `0` being the zero value
of the Go type.
-/

set_option autoImplicit false

namespace Tasker

/-! ## Errors and process termination -/

/-- Values of Go's `error` interface that the program meets; the nil error is
`none : Option Error`.  The three kinds are pairwise distinct values, as `==`
on errors in the source compares identities. -/
inductive Error where
  /-- The sentinel mongo.ErrNoDocuments. -/
  | ErrNoDocuments : Error
  /-- A value built in the program by errors.New(msg). -/
  | New (msg : String) : Error
  /-- Any other error value handed back by the driver. -/
  | Driver (code : Nat) : Error
  deriving DecidableEq, Repr

/-- Outcome of code that may call `check`: either the process was ended by
log.Fatal(err), or the code returned a value. -/
inductive Run (α : Type) where
  | fatal (e : Error) : Run α
  | ret (a : α) : Run α
  deriving DecidableEq, Repr

/-- Sequencing: nothing runs after the process has been ended. -/
def Run.bind {α β : Type} (r : Run α) (f : α → Run β) : Run β :=
  match r with
  | Run.fatal e => Run.fatal e
  | Run.ret a => f a

/-- Source `check`: a non-nil error ends the process through log.Fatal. -/
def check (err : Option Error) : Run Unit :=
  match err with
  | some e => Run.fatal e
  | none => Run.ret ()

/-! ## Task and its persisted representation -/

/-- Source struct `Task`. -/
structure Task where
  ID : Nat
  CreatedAt : Nat
  UpdatedAt : Nat
  Text : String
  Completed : Bool
  deriving DecidableEq, Repr

/-- A document of the collection, in the shape the bson tags of `Task` give it.
The tag of `Text` is "text,omitempty": an empty text is not written, so the
field `text` may be absent.  The two instants are tagged omitempty as well, but
an absent instant decodes to the zero instant and no filter of the program looks
at them, so they are kept as plain values (`0` standing for an absent field).
A stored document always has an `_id`; `completed` has no omitempty and is
always written. -/
structure Doc where
  id : Nat
  created_at : Nat
  updated_at : Nat
  text : Option String
  completed : Bool
  deriving DecidableEq, Repr

/-- The collection `tasker.tasks`: its documents in iteration order. -/
abbrev Store := List Doc

/-- Encoding of a `Task` on insert.  `generated` is the identifier the driver
supplies when the task's own ID is the zero value (tag "_id,omitempty"). -/
def marshal (generated : Nat) (task : Task) : Doc :=
  { id := if task.ID = 0 then generated else task.ID
    created_at := task.CreatedAt
    updated_at := task.UpdatedAt
    text := if task.Text = "" then none else some task.Text
    completed := task.Completed }

/-- Source `cur.Decode(&t)` on a fresh `var t Task`: an absent field leaves
the zero value. -/
def decode (d : Doc) : Task :=
  { ID := d.id
    CreatedAt := d.created_at
    UpdatedAt := d.updated_at
    Text := d.text.getD ""
    Completed := d.completed }

/-! ## Filters and driver calls -/

/-- The three shapes of filter document the program builds. -/
inductive BsonFilter where
  /-- The filter bson.D{{}} of `getAll`, which selects every document. -/
  | all : BsonFilter
  /-- The filter {completed: b} of `getPending` and `getFinished`. -/
  | completed (b : Bool) : BsonFilter
  /-- The filter {text: s} of `completeTask` and `deleteTask`. -/
  | text (s : String) : BsonFilter
  deriving DecidableEq, Repr

/-- Equality match of a filter on a document.  A document without a `text`
field is selected by no {text: s} filter, the empty string included. -/
def BsonFilter.sat : BsonFilter → Doc → Bool
  | BsonFilter.all, _ => true
  | BsonFilter.completed b, d => d.completed == b
  | BsonFilter.text s, d => d.text == some s

/-- What the environment does to the driver calls of one invocation: `none`
means the call goes through. -/
structure Driver where
  /-- Error of InsertOne, if any. -/
  insertErr : Option Nat
  /-- Identifier the driver supplies for a document encoded without `_id`. -/
  generatedID : Nat
  /-- Error of Find, if any. -/
  findErr : Option Nat
  /-- Error of the cursor: the number of documents it delivers before failing,
  and the error code. -/
  cursorErr : Option (Nat × Nat)
  /-- Error of FindOneAndUpdate other than "no document", if any. -/
  updateErr : Option Nat
  /-- Error of DeleteOne, if any. -/
  deleteErr : Option Nat
  deriving DecidableEq, Repr

/-- A driver on which every call goes through. -/
def Driver.healthy : Driver :=
  { insertErr := none, generatedID := 1, findErr := none, cursorErr := none,
    updateErr := none, deleteErr := none }

/-- Code of the duplicate-key write error of the store. -/
def duplicateKey : Nat := 11000

/-- Driver call collection.InsertOne: the encoded task is appended, unless the
call fails or the collection already holds a document with that `_id` (the
primary-key index), in which case the collection is left as it is. -/
def insertOne (c : Store) (drv : Driver) (task : Task) : Store × Option Error :=
  match drv.insertErr with
  | some code => (c, some (Error.Driver code))
  | none =>
    let d := marshal drv.generatedID task
    if c.any (fun x => x.id == d.id) then (c, some (Error.Driver duplicateKey))
    else (c ++ [d], none)

/-- Replace the first element satisfying `p` by its image under `f`. -/
def updateFirst (p : Doc → Bool) (f : Doc → Doc) : List Doc → List Doc
  | [] => []
  | d :: ds => if p d then f d :: ds else d :: updateFirst p f ds

/-- The update document {$set: {completed: true}} applied to a document. -/
def setCompleted (d : Doc) : Doc := { d with completed := true }

/-- Driver call collection.FindOneAndUpdate followed by Decode: the first
document selected by the filter is updated; the error is ErrNoDocuments when
the filter selects nothing.  A failed call leaves the collection as it is. -/
def findOneAndUpdate (c : Store) (drv : Driver) (filter : BsonFilter)
    (update : Doc → Doc) : Store × Option Error :=
  match drv.updateErr with
  | some code => (c, some (Error.Driver code))
  | none =>
    match c.find? filter.sat with
    | none => (c, some Error.ErrNoDocuments)
    | some _ => (updateFirst filter.sat update c, none)

/-- Driver call collection.DeleteOne: the first document selected by the filter
is removed.  The result is the collection, the DeletedCount of the result and
the error; a failed call leaves the collection as it is. -/
def deleteOne (c : Store) (drv : Driver) (filter : BsonFilter) :
    Store × Nat × Option Error :=
  match drv.deleteErr with
  | some code => (c, 0, some (Error.Driver code))
  | none => (c.eraseP filter.sat, c.length - (c.eraseP filter.sat).length, none)

/-! ## Persistence gateway (source functions) -/

/-- Source `createTask`. -/
def createTask (c : Store) (drv : Driver) (task : Task) : Store × Option Error :=
  insertOne c drv task

/-- Source `filterTasks`.  Find selects the documents of the collection that
satisfy the filter, in iteration order; the loop decodes what the cursor
delivers (documents of the shape `Doc` always decode, so the `check` in the loop
never fires); a cursor error returns the tasks read so far with that error. -/
def filterTasks (c : Store) (drv : Driver) (filter : BsonFilter) :
    Run (List Task × Option Error) :=
  (check (drv.findErr.map Error.Driver)).bind fun _ =>
    match drv.cursorErr with
    | some (n, code) =>
      Run.ret (((c.filter filter.sat).take n).map decode, some (Error.Driver code))
    | none =>
      let tasks := (c.filter filter.sat).map decode
      if tasks.length = 0 then Run.ret (tasks, some Error.ErrNoDocuments)
      else Run.ret (tasks, none)

/-- Source `getAll`. -/
def getAll (c : Store) (drv : Driver) : Run (List Task × Option Error) :=
  filterTasks c drv BsonFilter.all

/-- Source `getPending`. -/
def getPending (c : Store) (drv : Driver) : Run (List Task × Option Error) :=
  filterTasks c drv (BsonFilter.completed false)

/-- Source `getFinished`. -/
def getFinished (c : Store) (drv : Driver) : Run (List Task × Option Error) :=
  filterTasks c drv (BsonFilter.completed true)

/-- Source `completeTask`. -/
def completeTask (c : Store) (drv : Driver) (text : String) : Store × Option Error :=
  findOneAndUpdate c drv (BsonFilter.text text) setCompleted

/-- Source `deleteTask`: the collection after the call, and the outcome. -/
def deleteTask (c : Store) (drv : Driver) (text : String) :
    Store × Run (Option Error) :=
  let res := deleteOne c drv (BsonFilter.text text)
  (res.1, (check res.2.2).bind fun _ =>
    if res.2.1 = 0 then Run.ret (some (Error.New "No Tasks were deleted"))
    else Run.ret none)

/-! ## Command dispatcher (the Action functions of `main`) -/

/-- What an invocation reads from outside the collection. -/
structure Env where
  /-- Value of primitive.NewObjectID(). -/
  newObjectID : Nat
  /-- Value of the first time.Now(). -/
  now1 : Nat
  /-- Value of the second time.Now(). -/
  now2 : Nat
  driver : Driver
  deriving DecidableEq, Repr

/-- Source `c.Args().First()`: the first argument, or the empty string. -/
def First (args : List String) : String := args.headD ""

/-- The body shared by the default, `all` and `finished` Actions, after the
list call: ErrNoDocuments is turned into a message and a nil error, any other
error is returned, and a list is printed. -/
def listAction (r : Run (List Task × Option Error)) : Run (Option Error) :=
  match r with
  | Run.fatal e => Run.fatal e
  | Run.ret (_, some err) =>
    if err = Error.ErrNoDocuments then Run.ret none else Run.ret (some err)
  | Run.ret (_, none) => Run.ret none

/-- Action of the app (no command). -/
def defaultAction (c : Store) (env : Env) (_args : List String) :
    Store × Run (Option Error) :=
  (c, listAction (getPending c env.driver))

/-- Action of `add`. -/
def addAction (c : Store) (env : Env) (args : List String) :
    Store × Run (Option Error) :=
  let str := First args
  if str = "" then (c, Run.ret (some (Error.New "Cannot add a empty task")))
  else
    let task : Task :=
      { ID := env.newObjectID, CreatedAt := env.now1, UpdatedAt := env.now2,
        Text := str, Completed := false }
    let r := createTask c env.driver task
    (r.1, Run.ret r.2)

/-- Action of `all`. -/
def allAction (c : Store) (env : Env) (_args : List String) :
    Store × Run (Option Error) :=
  (c, listAction (getAll c env.driver))

/-- Action of `done`. -/
def doneAction (c : Store) (env : Env) (args : List String) :
    Store × Run (Option Error) :=
  let r := completeTask c env.driver (First args)
  (r.1, Run.ret r.2)

/-- Action of `finished`. -/
def finishedAction (c : Store) (env : Env) (_args : List String) :
    Store × Run (Option Error) :=
  (c, listAction (getFinished c env.driver))

/-- Action of `delete`. -/
def deleteAction (c : Store) (env : Env) (args : List String) :
    Store × Run (Option Error) :=
  deleteTask c env.driver (First args)

/-- The commands of the app; `default` is the app's own Action. -/
inductive Command where
  | default | add | all | done | finished | delete
  deriving DecidableEq, Repr

/-- One invocation: the Action of the command on the current collection. -/
def dispatch (cmd : Command) (c : Store) (env : Env) (args : List String) :
    Store × Run (Option Error) :=
  match cmd with
  | Command.default => defaultAction c env args
  | Command.add => addAction c env args
  | Command.all => allAction c env args
  | Command.done => doneAction c env args
  | Command.finished => finishedAction c env args
  | Command.delete => deleteAction c env args

/-- Source `main` after the command has been resolved: app.Run runs the Action
and its error goes to `check`. -/
def main (cmd : Command) (c : Store) (env : Env) (args : List String) :
    Store × Run Unit :=
  let r := dispatch cmd c env args
  (r.1, r.2.bind check)

/-- Exit status of the process: 1 when it was ended by log.Fatal, else 0. -/
def exitStatus (r : Run Unit) : Nat :=
  match r with
  | Run.ret _ => 0
  | Run.fatal _ => 1

/-! ## Vocabulary of the properties -/

/-- The tasks a list call hands back (none when the process was ended). -/
def listed (r : Run (List Task × Option Error)) : List Task :=
  match r with
  | Run.fatal _ => []
  | Run.ret (tasks, _) => tasks

/-- A gateway operation that changes the collection, with the state of the
driver during its call. -/
inductive Op where
  | create (drv : Driver) (task : Task) : Op
  | complete (drv : Driver) (text : String) : Op
  | delete (drv : Driver) (text : String) : Op
  deriving DecidableEq, Repr

/-- The text an operation is about. -/
def Op.text : Op → String
  | Op.create _ task => task.Text
  | Op.complete _ text => text
  | Op.delete _ text => text

/-- The collection after one gateway operation. -/
def Op.apply (c : Store) : Op → Store
  | Op.create drv task => (createTask c drv task).1
  | Op.complete drv text => (completeTask c drv text).1
  | Op.delete drv text => (deleteTask c drv text).1

/-- The collection after a sequence of gateway operations. -/
def applyOps (c : Store) (ops : List Op) : Store :=
  ops.foldl Op.apply c

/-- One invocation of the program: command, environment and arguments. -/
structure Invocation where
  cmd : Command
  env : Env
  args : List String
  deriving DecidableEq, Repr

/-- The collection after a sequence of invocations. -/
def runAll (c : Store) (runs : List Invocation) : Store :=
  runs.foldl (fun st r => (dispatch r.cmd st r.env r.args).1) c

/-- Every persisted task has non-empty text. -/
def NonEmptyText (c : Store) : Prop :=
  ∀ d ∈ c, (decode d).Text ≠ ""

instance (c : Store) : Decidable (NonEmptyText c) := by
  unfold NonEmptyText; infer_instance


/-! ## Lemmas on the driver calls -/

theorem sat_text_iff (s : String) (d : Doc) :
    (BsonFilter.text s).sat d = true ↔ d.text = some s := by
  simp [BsonFilter.sat]

theorem sat_text_false_iff (s : String) (d : Doc) :
    (BsonFilter.text s).sat d = false ↔ d.text ≠ some s := by
  simp [BsonFilter.sat]

theorem decode_text_of_some (d : Doc) (s : String) (h : d.text = some s) :
    (decode d).Text = s := by
  simp [decode, h]

theorem text_of_decode_text (d : Doc) (s : String) (hs : s ≠ "")
    (h : (decode d).Text = s) : d.text = some s := by
  cases ht : d.text with
  | none => simp [decode, ht] at h; exact absurd h.symm hs
  | some u => simp [decode, ht] at h; simp [h]

theorem text_iff_decode_text (c : Store) (d : Doc) (s : String)
    (h : s ≠ "" ∨ NonEmptyText c) (hd : d ∈ c) :
    d.text = some s ↔ (decode d).Text = s := by
  constructor
  · exact decode_text_of_some d s
  · intro ht
    rcases h with hs | hinv
    · exact text_of_decode_text d s hs ht
    · have hne : s ≠ "" := by
        rw [← ht]; exact hinv d hd
      exact text_of_decode_text d s hne ht

theorem eraseP_eq_self_of_none (p : Doc → Bool) (c : List Doc)
    (h : ∀ d ∈ c, p d = false) : c.eraseP p = c := by
  induction c with
  | nil => rfl
  | cons a l ih =>
    have ha : p a = false := h a (List.mem_cons_self a l)
    have hl : ∀ d ∈ l, p d = false := fun d hd => h d (List.mem_cons_of_mem a hd)
    simp [List.eraseP_cons, ha, ih hl]

theorem find_eq_none_of_none (p : Doc → Bool) (c : List Doc)
    (h : ∀ d ∈ c, p d = false) : c.find? p = none := by
  induction c with
  | nil => rfl
  | cons a l ih =>
    have ha : p a = false := h a (List.mem_cons_self a l)
    have hl : ∀ d ∈ l, p d = false := fun d hd => h d (List.mem_cons_of_mem a hd)
    simp [List.find?_cons, ha, ih hl]

theorem eraseP_split (p : Doc → Bool) (l1 l2 : List Doc) (d : Doc)
    (h1 : ∀ x ∈ l1, p x = false) (hd : p d = true) :
    (l1 ++ d :: l2).eraseP p = l1 ++ l2 := by
  induction l1 with
  | nil => simp [List.eraseP_cons, hd]
  | cons a l ih =>
    have ha : p a = false := h1 a (List.mem_cons_self a l)
    have hl : ∀ x ∈ l, p x = false := fun x hx => h1 x (List.mem_cons_of_mem a hx)
    simp [List.eraseP_cons, ha, ih hl]

theorem find_split (p : Doc → Bool) (l1 l2 : List Doc) (d : Doc)
    (h1 : ∀ x ∈ l1, p x = false) (hd : p d = true) :
    (l1 ++ d :: l2).find? p = some d := by
  induction l1 with
  | nil => simp [List.find?_cons, hd]
  | cons a l ih =>
    have ha : p a = false := h1 a (List.mem_cons_self a l)
    have hl : ∀ x ∈ l, p x = false := fun x hx => h1 x (List.mem_cons_of_mem a hx)
    simp [List.find?_cons, ha, ih hl]

theorem updateFirst_split (p : Doc → Bool) (f : Doc → Doc) (l1 l2 : List Doc) (d : Doc)
    (h1 : ∀ x ∈ l1, p x = false) (hd : p d = true) :
    updateFirst p f (l1 ++ d :: l2) = l1 ++ f d :: l2 := by
  induction l1 with
  | nil => simp [updateFirst, hd]
  | cons a l ih =>
    have ha : p a = false := h1 a (List.mem_cons_self a l)
    have hl : ∀ x ∈ l, p x = false := fun x hx => h1 x (List.mem_cons_of_mem a hx)
    simp [updateFirst, ha, ih hl]

theorem exists_first_split (p : Doc → Bool) (c : List Doc) (h : ∃ d ∈ c, p d = true) :
    ∃ l1 d l2, c = l1 ++ d :: l2 ∧ (∀ x ∈ l1, p x = false) ∧ p d = true := by
  induction c with
  | nil => obtain ⟨d, hd, _⟩ := h; cases hd
  | cons a l ih =>
    by_cases ha : p a = true
    · exact ⟨[], a, l, rfl, fun x hx => absurd hx (List.not_mem_nil x), ha⟩
    · have ha' : p a = false := by simpa using ha
      have hl : ∃ d ∈ l, p d = true := by
        obtain ⟨d, hd, hpd⟩ := h
        rcases List.mem_cons.mp hd with rfl | hd'
        · exact absurd hpd ha
        · exact ⟨d, hd', hpd⟩
      obtain ⟨l1, d, l2, hc, h1, hd⟩ := ih hl
      refine ⟨a :: l1, d, l2, by simp [hc], ?_, hd⟩
      intro x hx
      rcases List.mem_cons.mp hx with rfl | hx'
      · exact ha'
      · exact h1 x hx'

theorem mem_updateFirst_of_not (p : Doc → Bool) (f : Doc → Doc) (c : List Doc) (t : Doc)
    (ht : t ∈ c) (hp : p t = false) : t ∈ updateFirst p f c := by
  induction c with
  | nil => cases ht
  | cons a l ih =>
    by_cases ha : p a = true
    · have hne : t ≠ a := by
        intro h; rw [h, ha] at hp; cases hp
      rcases List.mem_cons.mp ht with h | h
      · exact absurd h hne
      · simp [updateFirst, ha, h]
    · have ha' : p a = false := by simpa using ha
      rcases List.mem_cons.mp ht with h | h
      · simp [updateFirst, ha', h]
      · simp [updateFirst, ha', ih h]

theorem mem_eraseP_of_not (p : Doc → Bool) (c : List Doc) (t : Doc)
    (ht : t ∈ c) (hp : p t = false) : t ∈ c.eraseP p := by
  induction c with
  | nil => cases ht
  | cons a l ih =>
    by_cases ha : p a = true
    · have hne : t ≠ a := by
        intro h; rw [h, ha] at hp; cases hp
      rcases List.mem_cons.mp ht with h | h
      · exact absurd h hne
      · simp [List.eraseP_cons, ha, h]
    · have ha' : p a = false := by simpa using ha
      rcases List.mem_cons.mp ht with h | h
      · simp [List.eraseP_cons, ha', h]
      · simp [List.eraseP_cons, ha', ih h]

theorem filterTasks_eq (c : Store) (drv : Driver) (filter : BsonFilter) :
    filterTasks c drv filter =
      match drv.findErr with
      | some code => Run.fatal (Error.Driver code)
      | none =>
        match drv.cursorErr with
        | some (n, code) =>
          Run.ret (((c.filter filter.sat).take n).map decode, some (Error.Driver code))
        | none =>
          if ((c.filter filter.sat).map decode).length = 0
          then Run.ret ((c.filter filter.sat).map decode, some Error.ErrNoDocuments)
          else Run.ret ((c.filter filter.sat).map decode, none) := by
  unfold filterTasks
  cases drv.findErr <;> rfl

theorem deleteTask_eq (c : Store) (drv : Driver) (text : String) :
    deleteTask c drv text =
      match drv.deleteErr with
      | some code => (c, Run.fatal (Error.Driver code))
      | none =>
        if c.length - (c.eraseP (BsonFilter.text text).sat).length = 0
        then (c.eraseP (BsonFilter.text text).sat,
          Run.ret (some (Error.New "No Tasks were deleted")))
        else (c.eraseP (BsonFilter.text text).sat, Run.ret none) := by
  unfold deleteTask deleteOne
  cases drv.deleteErr with
  | some code => rfl
  | none =>
    simp only [check, Run.bind]
    split <;> rfl

theorem filterTasks_healthy (c : Store) (drv : Driver) (filter : BsonFilter)
    (hf : drv.findErr = none) (hc : drv.cursorErr = none) :
    filterTasks c drv filter =
      Run.ret ((c.filter filter.sat).map decode,
        if c.filter filter.sat = [] then some Error.ErrNoDocuments else none) := by
  rw [filterTasks_eq]
  simp only [hf, hc]
  by_cases h : c.filter filter.sat = []
  · simp [h]
  · simp [h]

theorem mem_listed_filterTasks (c : Store) (drv : Driver) (filter : BsonFilter) (t : Task)
    (h : t ∈ listed (filterTasks c drv filter)) :
    ∃ d ∈ c, filter.sat d = true ∧ t = decode d := by
  rw [filterTasks_eq] at h
  cases hf : drv.findErr with
  | some code => simp [hf, listed] at h
  | none =>
    cases hc : drv.cursorErr with
    | some nc =>
      obtain ⟨n, code⟩ := nc
      simp only [hf, hc, listed] at h
      obtain ⟨d, hd, rfl⟩ := List.mem_map.mp h
      have hd' := List.mem_filter.mp (List.mem_of_mem_take hd)
      exact ⟨d, hd'.1, hd'.2, rfl⟩
    | none =>
      simp only [hf, hc] at h
      split at h
      · simp only [listed] at h
        obtain ⟨d, hd, rfl⟩ := List.mem_map.mp h
        have hd' := List.mem_filter.mp hd
        exact ⟨d, hd'.1, hd'.2, rfl⟩
      · simp only [listed] at h
        obtain ⟨d, hd, rfl⟩ := List.mem_map.mp h
        have hd' := List.mem_filter.mp hd
        exact ⟨d, hd'.1, hd'.2, rfl⟩


/-! ## Deleting a text that no task has -/

/-- C2: for every store and every s such that no task of the store has text s
(no document has a `text` field equal to s; this is implied by no decoded task
having Text s), delete(s) fails with the error "No Tasks were deleted", the
store is unchanged, and listAll() therefore returns the same result before and
after. -/
theorem deleteTask_absent (c : Store) (drv : Driver) (s : String)
    (hdrv : drv.deleteErr = none) (h : ∀ d ∈ c, d.text ≠ some s) :
    deleteTask c drv s = (c, Run.ret (some (Error.New "No Tasks were deleted"))) ∧
      ∀ drv2 : Driver, getAll (deleteTask c drv s).1 drv2 = getAll c drv2 := by
  have hnone : ∀ d ∈ c, (BsonFilter.text s).sat d = false :=
    fun d hd => (sat_text_false_iff s d).mpr (h d hd)
  have hdel : deleteTask c drv s =
      (c, Run.ret (some (Error.New "No Tasks were deleted"))) := by
    simp [deleteTask_eq, hdrv, eraseP_eq_self_of_none _ c hnone]
  refine ⟨hdel, ?_⟩
  intro drv2
  rw [hdel]

theorem deleteTask_absent_witness :
    Driver.healthy.deleteErr = none ∧
    (∀ d ∈ [Doc.mk 1 10 10 (some "milk") false], d.text ≠ some "bread") ∧
    (deleteTask [Doc.mk 1 10 10 (some "milk") false] Driver.healthy "bread" =
        ([Doc.mk 1 10 10 (some "milk") false],
          Run.ret (some (Error.New "No Tasks were deleted"))) ∧
      ∀ drv2 : Driver,
        getAll (deleteTask [Doc.mk 1 10 10 (some "milk") false] Driver.healthy "bread").1 drv2 =
          getAll [Doc.mk 1 10 10 (some "milk") false] drv2) :=
  ⟨rfl, by decide,
    deleteTask_absent [Doc.mk 1 10 10 (some "milk") false] Driver.healthy "bread" rfl
      (by decide)⟩

/-! ## Creating a task and listing -/

/-- C4: for every store and every task with non-empty text s, once create
succeeds listAll() never reports NotFound, and on a working driver it succeeds
with a list that includes a task with text s. -/
theorem createTask_then_getAll (c : Store) (drv : Driver) (task : Task)
    (hs : task.Text ≠ "") (hok : (createTask c drv task).2 = none) :
    (∀ (drv2 : Driver) (tasks : List Task),
        getAll (createTask c drv task).1 drv2 ≠ Run.ret (tasks, some Error.ErrNoDocuments)) ∧
      ∃ tasks, getAll (createTask c drv task).1 Driver.healthy = Run.ret (tasks, none) ∧
        ∃ t ∈ tasks, t.Text = task.Text := by
  have hstore : (createTask c drv task).1 = c ++ [marshal drv.generatedID task] := by
    unfold createTask insertOne at hok ⊢
    cases hi : drv.insertErr with
    | some code => simp [hi] at hok
    | none =>
      simp only [hi] at hok ⊢
      split
      · rename_i hdup
        simp [hdup] at hok
      · rfl
  have hne : ∀ drv2 : Driver,
      ((createTask c drv task).1.filter BsonFilter.all.sat) ≠ [] := by
    intro drv2
    rw [hstore]
    simp [BsonFilter.sat]
  constructor
  · intro drv2 tasks hcontra
    unfold getAll at hcontra
    rw [filterTasks_eq] at hcontra
    cases hf : drv2.findErr with
    | some code => simp [hf] at hcontra
    | none =>
      cases hc : drv2.cursorErr with
      | some nc => simp [hf, hc] at hcontra
      | none =>
        simp only [hf, hc] at hcontra
        have := hne drv2
        simp [this] at hcontra
  · refine ⟨((createTask c drv task).1.filter BsonFilter.all.sat).map decode, ?_, ?_⟩
    · unfold getAll
      rw [filterTasks_healthy _ _ _ rfl rfl]
      simp [hne Driver.healthy]
    · refine ⟨decode (marshal drv.generatedID task), ?_, ?_⟩
      · rw [hstore]
        simp [BsonFilter.sat]
      · simp [decode, marshal, hs]

theorem createTask_then_getAll_witness :
    (Task.mk 7 3 3 "milk" false).Text ≠ "" ∧
    (createTask [] Driver.healthy (Task.mk 7 3 3 "milk" false)).2 = none ∧
    ((∀ (drv2 : Driver) (tasks : List Task),
        getAll (createTask [] Driver.healthy (Task.mk 7 3 3 "milk" false)).1 drv2 ≠
          Run.ret (tasks, some Error.ErrNoDocuments)) ∧
      ∃ tasks, getAll (createTask [] Driver.healthy (Task.mk 7 3 3 "milk" false)).1
          Driver.healthy = Run.ret (tasks, none) ∧
        ∃ t ∈ tasks, t.Text = (Task.mk 7 3 3 "milk" false).Text) :=
  ⟨by decide, by decide,
    createTask_then_getAll [] Driver.healthy (Task.mk 7 3 3 "milk" false) (by decide)
      (by decide)⟩

/-! ## Adding an empty text -/

/-- C5: for every store, the `add` command with no argument or with an empty
first argument returns the error "Cannot add a empty task" (exit status 1) and
leaves the store unchanged. -/
theorem add_empty_text (c : Store) (env : Env) :
    dispatch Command.add c env [] =
        (c, Run.ret (some (Error.New "Cannot add a empty task"))) ∧
      (∀ rest : List String, dispatch Command.add c env ("" :: rest) =
        (c, Run.ret (some (Error.New "Cannot add a empty task")))) ∧
      exitStatus (main Command.add c env []).2 = 1 ∧
      ∀ rest : List String, exitStatus (main Command.add c env ("" :: rest)).2 = 1 := by
  refine ⟨?_, ?_, ?_, ?_⟩
  · simp [dispatch, addAction, First]
  · intro rest; simp [dispatch, addAction, First]
  · simp [main, dispatch, addAction, First, Run.bind, check, exitStatus]
  · intro rest; simp [main, dispatch, addAction, First, Run.bind, check, exitStatus]

/-! ## The three list operations -/

/-- C6: on a working driver listPending() yields exactly the tasks with
completed == false, listFinished() those with completed == true and listAll()
every task, each in store order, with the error NotFound exactly when that list
is empty and no error otherwise; and on any driver none of the three returns an
empty list as a success. -/
theorem list_operations (c : Store) (drv : Driver)
    (hf : drv.findErr = none) (hc : drv.cursorErr = none) :
    getPending c drv =
        Run.ret ((c.filter (fun d => d.completed == false)).map decode,
          if (c.filter (fun d => d.completed == false)).map decode = []
          then some Error.ErrNoDocuments else none) ∧
      getFinished c drv =
        Run.ret ((c.filter (fun d => d.completed == true)).map decode,
          if (c.filter (fun d => d.completed == true)).map decode = []
          then some Error.ErrNoDocuments else none) ∧
      getAll c drv =
        Run.ret (c.map decode,
          if c.map decode = [] then some Error.ErrNoDocuments else none) ∧
      ∀ drv2 : Driver, getPending c drv2 ≠ Run.ret ([], none) ∧
        getFinished c drv2 ≠ Run.ret ([], none) ∧ getAll c drv2 ≠ Run.ret ([], none) := by
  have hall : c.filter BsonFilter.all.sat = c := by
    apply List.filter_eq_self.mpr
    intro d _
    rfl
  have hnever : ∀ (drv2 : Driver) (filter : BsonFilter),
      filterTasks c drv2 filter ≠ Run.ret ([], none) := by
    intro drv2 filter hcontra
    rw [filterTasks_eq] at hcontra
    cases hf2 : drv2.findErr with
    | some code => simp [hf2] at hcontra
    | none =>
      cases hc2 : drv2.cursorErr with
      | some nc => simp [hf2, hc2] at hcontra
      | none =>
        simp only [hf2, hc2] at hcontra
        split at hcontra
        · simp at hcontra
        · rename_i hlen
          simp only [Run.ret.injEq, Prod.mk.injEq] at hcontra
          rw [hcontra.1] at hlen
          exact hlen rfl
  have hsat : ∀ b : Bool,
      (BsonFilter.completed b).sat = fun d => d.completed == b := by
    intro b; funext d; rfl
  refine ⟨?_, ?_, ?_, ?_⟩
  · unfold getPending
    rw [filterTasks_healthy _ _ _ hf hc, hsat false]
    simp
  · unfold getFinished
    rw [filterTasks_healthy _ _ _ hf hc, hsat true]
    simp
  · unfold getAll
    rw [filterTasks_healthy _ _ _ hf hc, hall]
    simp
  · intro drv2
    exact ⟨hnever drv2 _, hnever drv2 _, hnever drv2 _⟩

theorem list_operations_witness :
    Driver.healthy.findErr = none ∧ Driver.healthy.cursorErr = none ∧
    (getPending [Doc.mk 1 10 10 (some "milk") false, Doc.mk 2 11 11 (some "rye") true]
        Driver.healthy =
        Run.ret (([Doc.mk 1 10 10 (some "milk") false, Doc.mk 2 11 11 (some "rye") true].filter
            (fun d => d.completed == false)).map decode,
          if ([Doc.mk 1 10 10 (some "milk") false, Doc.mk 2 11 11 (some "rye") true].filter
            (fun d => d.completed == false)).map decode = []
          then some Error.ErrNoDocuments else none)) :=
  ⟨rfl, rfl,
    (list_operations [Doc.mk 1 10 10 (some "milk") false, Doc.mk 2 11 11 (some "rye") true]
      Driver.healthy rfl rfl).1⟩


/-! ## Completing a task -/

theorem completeTask_of_split (drv : Driver) (s : String) (l1 l2 : List Doc) (d : Doc)
    (hdrv : drv.updateErr = none) (h1 : ∀ x ∈ l1, x.text ≠ some s) (hd : d.text = some s) :
    completeTask (l1 ++ d :: l2) drv s =
      (l1 ++ Doc.mk d.id d.created_at d.updated_at d.text true :: l2, none) := by
  have h1' : ∀ x ∈ l1, (BsonFilter.text s).sat x = false :=
    fun x hx => (sat_text_false_iff s x).mpr (h1 x hx)
  have hd' : (BsonFilter.text s).sat d = true := (sat_text_iff s d).mpr hd
  unfold completeTask findOneAndUpdate
  simp only [hdrv, find_split _ l1 l2 d h1' hd', updateFirst_split _ _ l1 l2 d h1' hd']
  rfl

theorem completeTask_ok_split (c : Store) (drv : Driver) (s : String)
    (hok : (completeTask c drv s).2 = none) :
    ∃ l1 d l2, c = l1 ++ d :: l2 ∧ (∀ x ∈ l1, x.text ≠ some s) ∧ d.text = some s ∧
      drv.updateErr = none := by
  unfold completeTask findOneAndUpdate at hok
  cases hu : drv.updateErr with
  | some code => simp [hu] at hok
  | none =>
    simp only [hu] at hok
    cases hfind : c.find? (BsonFilter.text s).sat with
    | none => simp [hfind] at hok
    | some d0 =>
      have hex : ∃ d ∈ c, (BsonFilter.text s).sat d = true :=
        ⟨d0, List.mem_of_find?_eq_some hfind, List.find?_some hfind⟩
      obtain ⟨l1, d, l2, hc, h1, hd⟩ := exists_first_split _ c hex
      exact ⟨l1, d, l2, hc, fun x hx => (sat_text_false_iff s x).mp (h1 x hx),
        (sat_text_iff s d).mp hd, rfl⟩

/-- C1, at a store with two tasks of the same text: complete("milk") succeeds
and only the first of the two is completed, so listPending() still returns a
task with text "milk". -/
theorem complete_duplicate_counterexample :
    completeTask [Doc.mk 1 10 10 (some "milk") false, Doc.mk 2 11 11 (some "milk") false]
        Driver.healthy "milk" =
      ([Doc.mk 1 10 10 (some "milk") true, Doc.mk 2 11 11 (some "milk") false], none) ∧
    getPending [Doc.mk 1 10 10 (some "milk") true, Doc.mk 2 11 11 (some "milk") false]
        Driver.healthy =
      Run.ret ([Task.mk 2 11 11 "milk" false], none) ∧
    ¬ (∀ t ∈ listed (getPending (completeTask
          [Doc.mk 1 10 10 (some "milk") false, Doc.mk 2 11 11 (some "milk") false]
          Driver.healthy "milk").1 Driver.healthy), t.Text ≠ "milk") := by
  refine ⟨by decide, by decide, ?_⟩
  intro h
  exact h (Task.mk 2 11 11 "milk" false) (by decide) rfl

/-- C1 as amended: for every store (stores with several tasks of the same text
included) and every s, if complete(s) succeeds then listFinished() succeeds with
a list that includes a task with text s; and listPending() returns no task with
text s provided every task with text s other than the one just completed (the
first whose text equals s) is already completed, which is so in particular when
only one task has text s.  The proviso bears on the listPending() part only. -/
theorem complete_then_lists (c : Store) (drv : Driver) (s : String)
    (hok : (completeTask c drv s).2 = none) :
    (∃ tasks, getFinished (completeTask c drv s).1 Driver.healthy = Run.ret (tasks, none) ∧
        ∃ t ∈ tasks, t.Text = s) ∧
      ((∀ d ∈ c.eraseP (BsonFilter.text s).sat,
          (decode d).Text = s → d.completed = true) →
        ∀ (drv2 : Driver) (t : Task),
          t ∈ listed (getPending (completeTask c drv s).1 drv2) → t.Text ≠ s) := by
  obtain ⟨l1, d, l2, hc, h1, hd, hdrv⟩ := completeTask_ok_split c drv s hok
  subst hc
  have h1' : ∀ x ∈ l1, (BsonFilter.text s).sat x = false :=
    fun x hx => (sat_text_false_iff s x).mpr (h1 x hx)
  have hd' : (BsonFilter.text s).sat d = true := (sat_text_iff s d).mpr hd
  rw [eraseP_split _ l1 l2 d h1' hd']
  rw [completeTask_of_split drv s l1 l2 d hdrv h1 hd]
  constructor
  · have hmem : Doc.mk d.id d.created_at d.updated_at d.text true ∈
        (l1 ++ Doc.mk d.id d.created_at d.updated_at d.text true :: l2).filter
          (BsonFilter.completed true).sat := by
      apply List.mem_filter.mpr
      exact ⟨by simp, by simp [BsonFilter.sat]⟩
    have hne : (l1 ++ Doc.mk d.id d.created_at d.updated_at d.text true :: l2).filter
          (BsonFilter.completed true).sat ≠ [] :=
      List.ne_nil_of_mem hmem
    refine ⟨_, ?_, decode (Doc.mk d.id d.created_at d.updated_at d.text true),
      List.mem_map.mpr ⟨_, hmem, rfl⟩, ?_⟩
    · unfold getFinished
      rw [filterTasks_healthy _ _ _ rfl rfl]
      simp only [hne, if_false]
    · simp [decode, hd]
  · intro hrest drv2 t ht
    obtain ⟨x, hx, hsat, rfl⟩ := mem_listed_filterTasks _ _ _ t ht
    have hpend : x.completed = false := by
      simpa [BsonFilter.sat] using hsat
    intro htext
    rcases List.mem_append.mp hx with hx1 | hx2
    · have := hrest x (List.mem_append.mpr (Or.inl hx1)) htext
      rw [this] at hpend
      cases hpend
    · rcases List.mem_cons.mp hx2 with hx3 | hx3
      · rw [hx3] at hpend
        cases hpend
      · have := hrest x (List.mem_append.mpr (Or.inr hx3)) htext
        rw [this] at hpend
        cases hpend

theorem complete_then_lists_witness :
    (completeTask [Doc.mk 1 10 10 (some "milk") false, Doc.mk 2 11 11 (some "milk") false]
      Driver.healthy "milk").2 = none ∧
    (∃ tasks, getFinished (completeTask
        [Doc.mk 1 10 10 (some "milk") false, Doc.mk 2 11 11 (some "milk") false]
        Driver.healthy "milk").1 Driver.healthy = Run.ret (tasks, none) ∧
      ∃ t ∈ tasks, t.Text = "milk") ∧
    (completeTask [Doc.mk 1 10 10 (some "milk") false, Doc.mk 2 11 11 (some "rye") false]
      Driver.healthy "milk").2 = none ∧
    (∀ d ∈ [Doc.mk 1 10 10 (some "milk") false, Doc.mk 2 11 11 (some "rye") false].eraseP
        (BsonFilter.text "milk").sat, (decode d).Text = "milk" → d.completed = true) ∧
    ∀ (drv2 : Driver) (t : Task),
      t ∈ listed (getPending (completeTask
        [Doc.mk 1 10 10 (some "milk") false, Doc.mk 2 11 11 (some "rye") false]
        Driver.healthy "milk").1 drv2) → t.Text ≠ "milk" :=
  ⟨by decide,
    (complete_then_lists
      [Doc.mk 1 10 10 (some "milk") false, Doc.mk 2 11 11 (some "milk") false]
      Driver.healthy "milk" (by decide)).1,
    by decide, by decide,
    (complete_then_lists
      [Doc.mk 1 10 10 (some "milk") false, Doc.mk 2 11 11 (some "rye") false]
      Driver.healthy "milk" (by decide)).2 (by decide)⟩

/-- C7: for every store and every text, on a working driver: if no record has
text equal to the argument (no document has a `text` field equal to it),
complete(text) fails with NotFound and the store is unchanged; otherwise it
succeeds, and the store differs from the original only in the first such
record, whose completed flag is true while its id, created_at, updated_at and
text are as before. -/
theorem completeTask_frame (c : Store) (drv : Driver) (s : String)
    (hdrv : drv.updateErr = none) :
    ((∀ d ∈ c, d.text ≠ some s) → completeTask c drv s = (c, some Error.ErrNoDocuments)) ∧
      ((∃ d ∈ c, d.text = some s) →
        ∃ l1 d l2, c = l1 ++ d :: l2 ∧ (∀ x ∈ l1, x.text ≠ some s) ∧ d.text = some s ∧
          completeTask c drv s =
            (l1 ++ Doc.mk d.id d.created_at d.updated_at d.text true :: l2, none)) := by
  constructor
  · intro h
    have hnone : ∀ d ∈ c, (BsonFilter.text s).sat d = false :=
      fun d hd => (sat_text_false_iff s d).mpr (h d hd)
    unfold completeTask findOneAndUpdate
    simp only [hdrv, find_eq_none_of_none _ c hnone]
  · intro h
    have hex : ∃ d ∈ c, (BsonFilter.text s).sat d = true := by
      obtain ⟨d, hd, ht⟩ := h
      exact ⟨d, hd, (sat_text_iff s d).mpr ht⟩
    obtain ⟨l1, d, l2, hc, h1, hd⟩ := exists_first_split _ c hex
    have h1' : ∀ x ∈ l1, x.text ≠ some s :=
      fun x hx => (sat_text_false_iff s x).mp (h1 x hx)
    have hd' : d.text = some s := (sat_text_iff s d).mp hd
    refine ⟨l1, d, l2, hc, h1', hd', ?_⟩
    rw [hc]
    exact completeTask_of_split drv s l1 l2 d hdrv h1' hd'

theorem completeTask_frame_witness :
    Driver.healthy.updateErr = none ∧
    (∀ d ∈ [Doc.mk 1 10 10 (some "milk") false], d.text ≠ some "rye") ∧
    completeTask [Doc.mk 1 10 10 (some "milk") false] Driver.healthy "rye" =
      ([Doc.mk 1 10 10 (some "milk") false], some Error.ErrNoDocuments) ∧
    (∃ d ∈ [Doc.mk 1 10 10 (some "milk") false, Doc.mk 2 11 11 (some "rye") false],
      d.text = some "rye") ∧
    ∃ l1 d l2,
      [Doc.mk 1 10 10 (some "milk") false, Doc.mk 2 11 11 (some "rye") false] = l1 ++ d :: l2 ∧
      (∀ x ∈ l1, x.text ≠ some "rye") ∧ d.text = some "rye" ∧
      completeTask [Doc.mk 1 10 10 (some "milk") false, Doc.mk 2 11 11 (some "rye") false]
          Driver.healthy "rye" =
        (l1 ++ Doc.mk d.id d.created_at d.updated_at d.text true :: l2, none) :=
  ⟨rfl, by decide,
    (completeTask_frame [Doc.mk 1 10 10 (some "milk") false] Driver.healthy "rye" rfl).1
      (by decide),
    ⟨Doc.mk 2 11 11 (some "rye") false, by decide, rfl⟩,
    (completeTask_frame [Doc.mk 1 10 10 (some "milk") false, Doc.mk 2 11 11 (some "rye") false]
      Driver.healthy "rye" rfl).2 ⟨Doc.mk 2 11 11 (some "rye") false, by decide, rfl⟩⟩


/-! ## Deleting the only task with a given text -/

theorem exists_of_countP_pos (p : Doc → Bool) (c : List Doc) (h : 0 < c.countP p) :
    ∃ d ∈ c, p d = true := by
  induction c with
  | nil => simp at h
  | cons a l ih =>
    by_cases ha : p a = true
    · exact ⟨a, List.mem_cons_self a l, ha⟩
    · have hl : 0 < l.countP p := by
        simpa [List.countP_cons, ha] using h
      obtain ⟨d, hd, hp⟩ := ih hl
      exact ⟨d, List.mem_cons_of_mem a hd, hp⟩

theorem none_of_countP_zero (p : Doc → Bool) (c : List Doc) (h : c.countP p = 0) :
    ∀ d ∈ c, p d = false := by
  induction c with
  | nil => intro d hd; cases hd
  | cons a l ih =>
    have ha : p a = false := by
      by_contra hne
      have hat : p a = true := by simpa using hne
      simp [List.countP_cons, hat] at h
    have hl : l.countP p = 0 := by
      simpa [List.countP_cons, ha] using h
    intro d hd
    rcases List.mem_cons.mp hd with rfl | hd'
    · exact ha
    · exact ih hl d hd'

/-- C3: for every store and every s such that exactly one task of the store
has text s (exactly one document has a `text` field equal to s), delete(s)
succeeds on a working driver, removes that task and no other, every other task
staying in place in the same order; afterwards no task of the store has text s
and listAll() lists only tasks of the store, none of which has text s.  When s
is non-empty, or every task of the store has non-empty text, the text of a
document and the Text of the task decoded from it are the same thing, and no
listed task has Text s. -/
theorem deleteTask_unique (c : Store) (drv : Driver) (s : String)
    (hdrv : drv.deleteErr = none)
    (hone : c.countP (fun d => d.text == some s) = 1) :
    ∃ l1 d l2, c = l1 ++ d :: l2 ∧ d.text = some s ∧
      deleteTask c drv s = (l1 ++ l2, Run.ret none) ∧
      (∀ x ∈ l1 ++ l2, x.text ≠ some s) ∧
      (∀ (drv2 : Driver) (t : Task), t ∈ listed (getAll (l1 ++ l2) drv2) →
        ∃ x ∈ l1 ++ l2, t = decode x ∧ x.text ≠ some s) ∧
      (s ≠ "" ∨ NonEmptyText c → ∀ (drv2 : Driver) (t : Task),
        t ∈ listed (getAll (l1 ++ l2) drv2) → t.Text ≠ s) := by
  have hfun : (fun d : Doc => d.text == some s) = (BsonFilter.text s).sat := by
    funext d; rfl
  rw [hfun] at hone
  have hex : ∃ d ∈ c, (BsonFilter.text s).sat d = true :=
    exists_of_countP_pos _ c (by omega)
  obtain ⟨l1, d, l2, hc, h1, hd⟩ := exists_first_split _ c hex
  subst hc
  have hl1 : l1.countP (BsonFilter.text s).sat = 0 := by
    apply List.countP_eq_zero.mpr
    intro x hx
    simp [h1 x hx]
  have hl2 : l2.countP (BsonFilter.text s).sat = 0 := by
    rw [List.countP_append, List.countP_cons, hl1] at hone
    simp only [hd, if_true] at hone
    omega
  have h2 : ∀ x ∈ l2, (BsonFilter.text s).sat x = false := none_of_countP_zero _ l2 hl2
  have hrest : ∀ x ∈ l1 ++ l2, x.text ≠ some s := by
    intro x hx
    rcases List.mem_append.mp hx with hx1 | hx2
    · exact (sat_text_false_iff s x).mp (h1 x hx1)
    · exact (sat_text_false_iff s x).mp (h2 x hx2)
  have hlisted : ∀ (drv2 : Driver) (t : Task), t ∈ listed (getAll (l1 ++ l2) drv2) →
      ∃ x ∈ l1 ++ l2, t = decode x ∧ x.text ≠ some s := by
    intro drv2 t ht
    obtain ⟨x, hx, _, hdec⟩ := mem_listed_filterTasks _ _ _ t ht
    exact ⟨x, hx, hdec, hrest x hx⟩
  refine ⟨l1, d, l2, rfl, (sat_text_iff s d).mp hd, ?_, hrest, hlisted, ?_⟩
  · rw [deleteTask_eq]
    simp only [hdrv, eraseP_split _ l1 l2 d h1 hd]
    have hlen : ¬ ((l1 ++ d :: l2).length - (l1 ++ l2).length = 0) := by
      simp only [List.length_append, List.length_cons]
      omega
    rw [if_neg hlen]
  · intro hs drv2 t ht htext
    obtain ⟨x, hx, hdec, hne⟩ := hlisted drv2 t ht
    rw [hdec] at htext
    have hxc : x ∈ l1 ++ d :: l2 := by
      rcases List.mem_append.mp hx with hx1 | hx2
      · exact List.mem_append.mpr (Or.inl hx1)
      · exact List.mem_append.mpr (Or.inr (List.mem_cons_of_mem d hx2))
    exact hne ((text_iff_decode_text (l1 ++ d :: l2) x s hs hxc).mpr htext)

theorem deleteTask_unique_witness :
    Driver.healthy.deleteErr = none ∧
    [Doc.mk 1 10 10 (some "milk") false, Doc.mk 2 11 11 (some "rye") true,
      Doc.mk 3 12 12 (some "tea") false].countP (fun d => d.text == some "rye") = 1 ∧
    ∃ l1 d l2,
      [Doc.mk 1 10 10 (some "milk") false, Doc.mk 2 11 11 (some "rye") true,
        Doc.mk 3 12 12 (some "tea") false] = l1 ++ d :: l2 ∧ d.text = some "rye" ∧
      deleteTask [Doc.mk 1 10 10 (some "milk") false, Doc.mk 2 11 11 (some "rye") true,
        Doc.mk 3 12 12 (some "tea") false] Driver.healthy "rye" = (l1 ++ l2, Run.ret none) ∧
      (∀ x ∈ l1 ++ l2, x.text ≠ some "rye") ∧
      (∀ (drv2 : Driver) (t : Task), t ∈ listed (getAll (l1 ++ l2) drv2) →
        ∃ x ∈ l1 ++ l2, t = decode x ∧ x.text ≠ some "rye") ∧
      ("rye" ≠ "" ∨ NonEmptyText [Doc.mk 1 10 10 (some "milk") false,
          Doc.mk 2 11 11 (some "rye") true, Doc.mk 3 12 12 (some "tea") false] →
        ∀ (drv2 : Driver) (t : Task),
          t ∈ listed (getAll (l1 ++ l2) drv2) → t.Text ≠ "rye") :=
  ⟨rfl, by decide,
    deleteTask_unique [Doc.mk 1 10 10 (some "milk") false, Doc.mk 2 11 11 (some "rye") true,
      Doc.mk 3 12 12 (some "tea") false] Driver.healthy "rye" rfl (by decide)⟩


/-! ## Operations on other tasks -/

theorem mem_apply_of_other (c : Store) (t : Doc) (o : Op)
    (ht : t ∈ c) (hne : t.text ≠ some o.text) : t ∈ o.apply c := by
  cases o with
  | create drv task =>
    simp only [Op.apply, createTask, insertOne]
    cases drv.insertErr with
    | some code => exact ht
    | none =>
      simp only
      split
      · exact ht
      · exact List.mem_append.mpr (Or.inl ht)
  | complete drv text =>
    have hsat : (BsonFilter.text text).sat t = false :=
      (sat_text_false_iff text t).mpr hne
    simp only [Op.apply, completeTask, findOneAndUpdate]
    cases drv.updateErr with
    | some code => exact ht
    | none =>
      simp only
      cases c.find? (BsonFilter.text text).sat with
      | none => exact ht
      | some d0 => exact mem_updateFirst_of_not _ _ c t ht hsat
  | delete drv text =>
    have hsat : (BsonFilter.text text).sat t = false :=
      (sat_text_false_iff text t).mpr hne
    simp only [Op.apply, deleteTask_eq]
    cases drv.deleteErr with
    | some code => exact ht
    | none =>
      simp only
      split
      · exact mem_eraseP_of_not _ c t ht hsat
      · exact mem_eraseP_of_not _ c t ht hsat

/-- C8: for every store, every task t in it and every finite sequence of
create, complete and delete operations whose text arguments all differ from the
text of t, the task t is still in the store after the sequence, with the same
id, created_at, updated_at, text and completed flag. -/
theorem unrelated_ops_preserve (c : Store) (t : Doc) (ops : List Op)
    (ht : t ∈ c) (hops : ∀ o ∈ ops, t.text ≠ some o.text) :
    t ∈ applyOps c ops := by
  induction ops generalizing c with
  | nil => exact ht
  | cons o rest ih =>
    have ho : t.text ≠ some o.text := hops o (List.mem_cons_self o rest)
    have hrest : ∀ o2 ∈ rest, t.text ≠ some o2.text :=
      fun o2 h2 => hops o2 (List.mem_cons_of_mem o h2)
    exact ih (o.apply c) (mem_apply_of_other c t o ht ho) hrest

theorem unrelated_ops_preserve_witness :
    Doc.mk 1 10 10 (some "milk") false ∈
      [Doc.mk 1 10 10 (some "milk") false, Doc.mk 2 11 11 (some "rye") false] ∧
    (∀ o ∈ [Op.complete Driver.healthy "rye", Op.create Driver.healthy (Task.mk 3 12 12 "tea" false),
        Op.delete Driver.healthy "rye"],
      (Doc.mk 1 10 10 (some "milk") false).text ≠ some o.text) ∧
    Doc.mk 1 10 10 (some "milk") false ∈
      applyOps [Doc.mk 1 10 10 (some "milk") false, Doc.mk 2 11 11 (some "rye") false]
        [Op.complete Driver.healthy "rye", Op.create Driver.healthy (Task.mk 3 12 12 "tea" false),
          Op.delete Driver.healthy "rye"] :=
  ⟨by decide, by decide,
    unrelated_ops_preserve
      [Doc.mk 1 10 10 (some "milk") false, Doc.mk 2 11 11 (some "rye") false]
      (Doc.mk 1 10 10 (some "milk") false)
      [Op.complete Driver.healthy "rye", Op.create Driver.healthy (Task.mk 3 12 12 "tea" false),
        Op.delete Driver.healthy "rye"]
      (by decide) (by decide)⟩


/-! ## Errors of the commands -/

theorem exitStatus_of_failure (r : Run (Option Error)) (h : r ≠ Run.ret none) :
    exitStatus (r.bind check) = 1 := by
  cases r with
  | fatal e => rfl
  | ret a =>
    cases a with
    | none => exact absurd rfl h
    | some e => rfl

theorem listAction_notFound (tasks : List Task) :
    listAction (Run.ret (tasks, some Error.ErrNoDocuments)) = Run.ret none := by
  simp [listAction]

theorem listAction_other (tasks : List Task) (e : Error) (he : e ≠ Error.ErrNoDocuments) :
    listAction (Run.ret (tasks, some e)) = Run.ret (some e) := by
  simp [listAction, he]

/-- C9: for every store, the default, `all` and `finished` commands return a
nil error when their list operation reports NotFound and return the error of
the list operation when it reports any other error; `done <text>` and
`delete <text>` end in a failure whenever no record has text equal to <text>:
`done` returns an error, `delete` returns the error "No Tasks were deleted" on
a working driver and never returns a nil error. -/
theorem command_errors (c : Store) (env : Env) (args : List String) :
    (∀ tasks, getPending c env.driver = Run.ret (tasks, some Error.ErrNoDocuments) →
        dispatch Command.default c env args = (c, Run.ret none)) ∧
      (∀ tasks, getAll c env.driver = Run.ret (tasks, some Error.ErrNoDocuments) →
        dispatch Command.all c env args = (c, Run.ret none)) ∧
      (∀ tasks, getFinished c env.driver = Run.ret (tasks, some Error.ErrNoDocuments) →
        dispatch Command.finished c env args = (c, Run.ret none)) ∧
      (∀ tasks e, e ≠ Error.ErrNoDocuments →
        getPending c env.driver = Run.ret (tasks, some e) →
        dispatch Command.default c env args = (c, Run.ret (some e))) ∧
      (∀ tasks e, e ≠ Error.ErrNoDocuments →
        getAll c env.driver = Run.ret (tasks, some e) →
        dispatch Command.all c env args = (c, Run.ret (some e))) ∧
      (∀ tasks e, e ≠ Error.ErrNoDocuments →
        getFinished c env.driver = Run.ret (tasks, some e) →
        dispatch Command.finished c env args = (c, Run.ret (some e))) ∧
      ((∀ d ∈ c, d.text ≠ some (First args)) →
        (∃ e, dispatch Command.done c env args = (c, Run.ret (some e))) ∧
        (dispatch Command.delete c env args).1 = c ∧
        (dispatch Command.delete c env args).2 ≠ Run.ret none ∧
        exitStatus (main Command.done c env args).2 = 1 ∧
        exitStatus (main Command.delete c env args).2 = 1 ∧
        (env.driver.deleteErr = none → dispatch Command.delete c env args =
          (c, Run.ret (some (Error.New "No Tasks were deleted"))))) := by
  refine ⟨?_, ?_, ?_, ?_, ?_, ?_, ?_⟩
  · intro tasks h
    simp only [dispatch, defaultAction, h, listAction_notFound]
  · intro tasks h
    simp only [dispatch, allAction, h, listAction_notFound]
  · intro tasks h
    simp only [dispatch, finishedAction, h, listAction_notFound]
  · intro tasks e he h
    simp only [dispatch, defaultAction, h, listAction_other tasks e he]
  · intro tasks e he h
    simp only [dispatch, allAction, h, listAction_other tasks e he]
  · intro tasks e he h
    simp only [dispatch, finishedAction, h, listAction_other tasks e he]
  · intro h
    have hnone : ∀ d ∈ c, (BsonFilter.text (First args)).sat d = false :=
      fun d hd => (sat_text_false_iff (First args) d).mpr (h d hd)
    have hdone : ∃ e, dispatch Command.done c env args = (c, Run.ret (some e)) := by
      simp only [dispatch, doneAction, completeTask, findOneAndUpdate]
      cases env.driver.updateErr with
      | some code => exact ⟨Error.Driver code, rfl⟩
      | none =>
        simp only [find_eq_none_of_none _ c hnone]
        exact ⟨Error.ErrNoDocuments, rfl⟩
    have hdel : (dispatch Command.delete c env args).1 = c ∧
        (dispatch Command.delete c env args).2 ≠ Run.ret none ∧
        (env.driver.deleteErr = none → dispatch Command.delete c env args =
          (c, Run.ret (some (Error.New "No Tasks were deleted")))) := by
      simp only [dispatch, deleteAction, deleteTask_eq]
      cases env.driver.deleteErr with
      | some code =>
        refine ⟨rfl, ?_, ?_⟩
        · intro hcontra; cases hcontra
        · intro hcontra; cases hcontra
      | none =>
        rw [eraseP_eq_self_of_none _ c hnone]
        simp
    obtain ⟨e, he⟩ := hdone
    refine ⟨⟨e, he⟩, hdel.1, hdel.2.1, ?_, ?_, hdel.2.2⟩
    · have hne : (dispatch Command.done c env args).2 ≠ Run.ret none := by
        rw [he]; intro hcontra; cases hcontra
      exact exitStatus_of_failure _ hne
    · exact exitStatus_of_failure _ hdel.2.1

theorem command_errors_witness :
    (getPending [] (Env.mk 7 1 1 Driver.healthy).driver =
        Run.ret ([], some Error.ErrNoDocuments) ∧
      dispatch Command.default [] (Env.mk 7 1 1 Driver.healthy) [] = ([], Run.ret none)) ∧
    (Error.Driver 9 ≠ Error.ErrNoDocuments ∧
      getAll [] (Env.mk 7 1 1 (Driver.mk none 1 none (some (0, 9)) none none)).driver =
        Run.ret ([], some (Error.Driver 9)) ∧
      dispatch Command.all [] (Env.mk 7 1 1 (Driver.mk none 1 none (some (0, 9)) none none)) [] =
        ([], Run.ret (some (Error.Driver 9)))) ∧
    ((∀ d ∈ [Doc.mk 1 10 10 (some "milk") false], d.text ≠ some (First ["rye"])) ∧
      (∃ e, dispatch Command.done [Doc.mk 1 10 10 (some "milk") false]
          (Env.mk 7 1 1 Driver.healthy) ["rye"] =
        ([Doc.mk 1 10 10 (some "milk") false], Run.ret (some e))) ∧
      (Env.mk 7 1 1 Driver.healthy).driver.deleteErr = none ∧
      dispatch Command.delete [Doc.mk 1 10 10 (some "milk") false]
          (Env.mk 7 1 1 Driver.healthy) ["rye"] =
        ([Doc.mk 1 10 10 (some "milk") false],
          Run.ret (some (Error.New "No Tasks were deleted")))) :=
  ⟨⟨by decide,
      (command_errors [] (Env.mk 7 1 1 Driver.healthy) []).1 [] (by decide)⟩,
    ⟨by decide, by decide,
      (command_errors [] (Env.mk 7 1 1 (Driver.mk none 1 none (some (0, 9)) none none)) []).2.2.2.2.1
        [] (Error.Driver 9) (by decide) (by decide)⟩,
    ⟨by decide,
      ((command_errors [Doc.mk 1 10 10 (some "milk") false] (Env.mk 7 1 1 Driver.healthy)
        ["rye"]).2.2.2.2.2.2 (by decide)).1,
      rfl,
      ((command_errors [Doc.mk 1 10 10 (some "milk") false] (Env.mk 7 1 1 Driver.healthy)
        ["rye"]).2.2.2.2.2.2 (by decide)).2.2.2.2.2 rfl⟩⟩

/-! ## Non-empty text is an invariant -/

theorem mem_updateFirst (p : Doc → Bool) (f : Doc → Doc) (c : List Doc) (x : Doc)
    (hx : x ∈ updateFirst p f c) : x ∈ c ∨ ∃ y ∈ c, x = f y := by
  induction c with
  | nil => simp [updateFirst] at hx
  | cons a l ih =>
    by_cases ha : p a = true
    · simp only [updateFirst, ha, if_true] at hx
      rcases List.mem_cons.mp hx with h | h
      · exact Or.inr ⟨a, List.mem_cons_self a l, h⟩
      · exact Or.inl (List.mem_cons_of_mem a h)
    · have ha' : p a = false := by simpa using ha
      simp only [updateFirst, ha'] at hx
      rcases List.mem_cons.mp hx with h | h
      · exact Or.inl (by rw [h]; exact List.mem_cons_self a l)
      · rcases ih h with h2 | ⟨y, hy, hxy⟩
        · exact Or.inl (List.mem_cons_of_mem a h2)
        · exact Or.inr ⟨y, List.mem_cons_of_mem a hy, hxy⟩

theorem dispatch_nonEmptyText (cmd : Command) (c : Store) (env : Env) (args : List String)
    (h : NonEmptyText c) : NonEmptyText (dispatch cmd c env args).1 := by
  cases cmd with
  | default => exact h
  | all => exact h
  | finished => exact h
  | add =>
    simp only [dispatch, addAction]
    by_cases hstr : First args = ""
    · simp only [hstr, if_true]; exact h
    · simp only [hstr, if_false, createTask, insertOne]
      cases env.driver.insertErr with
      | some code => exact h
      | none =>
        simp only
        split
        · exact h
        · intro d hd
          rcases List.mem_append.mp hd with h1 | h2
          · exact h d h1
          · have hd2 : d = marshal env.driver.generatedID
                (Task.mk env.newObjectID env.now1 env.now2 (First args) false) := by
              simpa using h2
            rw [hd2]
            simp [decode, marshal, hstr]
  | done =>
    simp only [dispatch, doneAction, completeTask, findOneAndUpdate]
    cases env.driver.updateErr with
    | some code => exact h
    | none =>
      simp only
      cases c.find? (BsonFilter.text (First args)).sat with
      | none => exact h
      | some d0 =>
        intro d hd
        rcases mem_updateFirst _ _ c d hd with h1 | ⟨y, hy, hdy⟩
        · exact h d h1
        · rw [hdy]
          exact h y hy
  | delete =>
    simp only [dispatch, deleteAction, deleteTask_eq]
    cases env.driver.deleteErr with
    | some code => exact h
    | none =>
      simp only
      split
      · intro d hd
        exact h d (List.mem_of_mem_eraseP hd)
      · intro d hd
        exact h d (List.mem_of_mem_eraseP hd)

theorem runAll_nonEmptyText (runs : List Invocation) (c : Store) (h : NonEmptyText c) :
    NonEmptyText (runAll c runs) := by
  induction runs generalizing c with
  | nil => exact h
  | cons r rest ih =>
    exact ih (dispatch r.cmd c r.env r.args).1 (dispatch_nonEmptyText r.cmd c r.env r.args h)

/-- C10: "every persisted task has non-empty text" is an invariant of the
command dispatcher: for every store satisfying it and every command with any
arguments the store after the command satisfies it, and so does every store
reached from the empty store by any sequence of invocations. -/
theorem nonEmptyText_invariant :
    (∀ (cmd : Command) (c : Store) (env : Env) (args : List String),
        NonEmptyText c → NonEmptyText (dispatch cmd c env args).1) ∧
      ∀ runs : List Invocation, NonEmptyText (runAll [] runs) := by
  refine ⟨dispatch_nonEmptyText, ?_⟩
  intro runs
  exact runAll_nonEmptyText runs [] (fun d hd => absurd hd (List.not_mem_nil d))

theorem nonEmptyText_invariant_witness :
    NonEmptyText [Doc.mk 1 10 10 (some "milk") false] ∧
    NonEmptyText (dispatch Command.add [Doc.mk 1 10 10 (some "milk") false]
      (Env.mk 7 1 1 Driver.healthy) ["rye"]).1 :=
  ⟨by decide,
    nonEmptyText_invariant.1 Command.add [Doc.mk 1 10 10 (some "milk") false]
      (Env.mk 7 1 1 Driver.healthy) ["rye"] (by decide)⟩

end Tasker
